import Mathlib

/-!
Verification of the FaceGen base library specification against its sources.

The development shallowly embeds three parts of the code base:

* the mesh operations declared in `Fg3dMeshOps.hpp` (sphere generation,
  surface merging, morph application) — only the header is present in the
  sources, so the operation bodies are modelled from the specification
  text, over exact real arithmetic in place of `float`;
* the Win32 dialog shell (`fgGuiDialogFileLoad`, `fgGuiDialogFileSave`,
  `fgGuiDialogDirSelect`, `fgGuiDialogProgress`, splash screen) — embedded
  from the source as pure functions over an oracle describing the OS and
  user behaviour, producing a result together with a trace of
  acquire/release events;
* the type-erasure container `FgVariant` from `FgVariant.hpp`.
-/

/-! ## Exact 3D vectors (model of FgVect3F over the reals) -/

/-- A 3D vector with real coordinates, modelling FgVect3F. -/
structure Vec3 where
  x : ℝ
  y : ℝ
  z : ℝ

namespace Vec3

/-- The zero vector. -/
def zero : Vec3 := ⟨0, 0, 0⟩

/-- Componentwise addition. -/
noncomputable def add (a b : Vec3) : Vec3 := ⟨a.x + b.x, a.y + b.y, a.z + b.z⟩

/-- Scalar multiplication. -/
noncomputable def smul (t : ℝ) (v : Vec3) : Vec3 := ⟨t * v.x, t * v.y, t * v.z⟩

/-- Euclidean dot product. -/
noncomputable def dot (a b : Vec3) : ℝ := a.x * b.x + a.y * b.y + a.z * b.z

/-- Squared Euclidean length. -/
noncomputable def normSq (v : Vec3) : ℝ := v.dot v

/-- Euclidean length. -/
noncomputable def norm (v : Vec3) : ℝ := Real.sqrt v.normSq

/-- Midpoint of two points, as used for edge splitting. -/
noncomputable def midpoint (a b : Vec3) : Vec3 := smul (1 / 2) (add a b)

/-- Renormalization of a vertex to a given distance from the origin:
normalize, then scale by the radius.  This models the per-pass vertex
rescaling step of `fgCreateSphere`. -/
noncomputable def renormToRadius (r : ℝ) (v : Vec3) : Vec3 :=
  smul (r / v.norm) v

theorem dot_comm (a b : Vec3) : a.dot b = b.dot a := by
  simp only [dot]; ring

theorem normSq_nonneg (v : Vec3) : 0 ≤ v.normSq := by
  simp only [normSq, dot]
  nlinarith [sq_nonneg v.x, sq_nonneg v.y, sq_nonneg v.z]

theorem norm_nonneg (v : Vec3) : 0 ≤ v.norm := Real.sqrt_nonneg _

theorem normSq_eq_norm_sq (v : Vec3) : v.normSq = v.norm ^ 2 := by
  rw [norm, sq, Real.mul_self_sqrt (normSq_nonneg v)]

theorem normSq_zero : (zero).normSq = 0 := by
  simp [zero, normSq, dot]

theorem normSq_pos_of_ne_zero {v : Vec3} (h : v ≠ zero) : 0 < v.normSq := by
  rcases lt_or_eq_of_le (normSq_nonneg v) with hlt | heq
  · exact hlt
  · exfalso
    apply h
    have hsum : v.x ^ 2 + v.y ^ 2 + v.z ^ 2 = 0 := by
      simp only [normSq, dot] at heq; nlinarith [heq]
    have hx0 : v.x = 0 := by nlinarith [sq_nonneg v.x, sq_nonneg v.y, sq_nonneg v.z]
    have hy0 : v.y = 0 := by nlinarith [sq_nonneg v.x, sq_nonneg v.y, sq_nonneg v.z]
    have hz0 : v.z = 0 := by nlinarith [sq_nonneg v.x, sq_nonneg v.y, sq_nonneg v.z]
    cases v
    simp only [zero, Vec3.mk.injEq]
    exact ⟨hx0, hy0, hz0⟩

theorem norm_pos_of_ne_zero {v : Vec3} (h : v ≠ zero) : 0 < v.norm :=
  Real.sqrt_pos.mpr (normSq_pos_of_ne_zero h)

theorem ne_zero_of_norm_eq {v : Vec3} {r : ℝ} (hr : 0 < r) (h : v.norm = r) :
    v ≠ zero := by
  intro hv
  rw [hv, norm, normSq_zero, Real.sqrt_zero] at h
  exact absurd h.symm (ne_of_gt hr)

theorem normSq_smul (t : ℝ) (v : Vec3) : (smul t v).normSq = t ^ 2 * v.normSq := by
  simp only [smul, normSq, dot]; ring

theorem dot_smul_smul (s t : ℝ) (u v : Vec3) :
    (smul s u).dot (smul t v) = s * t * u.dot v := by
  simp only [smul, dot]; ring

theorem norm_renormToRadius {r : ℝ} (hr : 0 < r) {v : Vec3} (hv : v ≠ zero) :
    (renormToRadius r v).norm = r := by
  have hn : 0 < v.norm := norm_pos_of_ne_zero hv
  have hfac : 0 ≤ r / v.norm := le_of_lt (div_pos hr hn)
  rw [renormToRadius, norm, normSq_smul, Real.sqrt_mul (sq_nonneg _),
    Real.sqrt_sq hfac, ← norm]
  field_simp

theorem renormToRadius_eq_self {r : ℝ} (hr : 0 < r) {v : Vec3} (hv : v.norm = r) :
    renormToRadius r v = v := by
  rw [renormToRadius, hv, div_self (ne_of_gt hr)]
  cases v
  simp [smul]

theorem normSq_of_norm_eq {v : Vec3} {r : ℝ} (h : v.norm = r) : v.normSq = r ^ 2 := by
  rw [normSq_eq_norm_sq, h]

/-- Squared length of a midpoint of two points at distance r from the
origin, in terms of their dot product. -/
theorem normSq_midpoint {u v : Vec3} {r : ℝ} (hu : u.norm = r) (hv : v.norm = r) :
    (midpoint u v).normSq = (r ^ 2 + u.dot v) / 2 := by
  have hu2 := normSq_of_norm_eq hu
  have hv2 := normSq_of_norm_eq hv
  simp only [midpoint, smul, add, normSq, dot] at *
  nlinarith [hu2, hv2]

/-- A midpoint of two points on the radius-r sphere whose dot product
exceeds the antipodal value is away from the origin. -/
theorem midpoint_ne_zero {u v : Vec3} {r : ℝ} (hr : 0 < r)
    (hu : u.norm = r) (hv : v.norm = r) (hd : -(r ^ 2) / 3 ≤ u.dot v) :
    midpoint u v ≠ zero := by
  intro hz
  have h1 : (midpoint u v).normSq = (r ^ 2 + u.dot v) / 2 := normSq_midpoint hu hv
  rw [hz, normSq_zero] at h1
  nlinarith [sq_nonneg r, hr, hd, h1]

theorem midpoint_comm (a b : Vec3) : midpoint a b = midpoint b a := by
  simp only [midpoint, smul, add, Vec3.mk.injEq]
  refine ⟨by ring, by ring, by ring⟩

theorem dot_smul_right (t : ℝ) (u v : Vec3) : u.dot (smul t v) = t * u.dot v := by
  simp only [smul, dot]; ring

theorem dot_midpoint_right (u v w : Vec3) :
    u.dot (midpoint v w) = (u.dot v + u.dot w) / 2 := by
  simp only [midpoint, smul, add, dot]; ring

theorem dot_midpoint_midpoint (x y z : Vec3) :
    (midpoint x y).dot (midpoint y z) =
      (x.dot y + x.dot z + y.dot y + y.dot z) / 4 := by
  simp only [midpoint, smul, add, dot]; ring

end Vec3

/-! ## Spec-modelled sphere generation (`fgCreateSphere`)

Modelled from the spec: the body of `fgCreateSphere` is absent from the
sources (only its declaration in `Fg3dMeshOps.hpp` is present), so the
construction below follows the specification text of section 4.4: start
from a tetrahedron; on each pass split every triangle into four by
inserting a vertex at each edge midpoint, reusing a midpoint already
created for a shared edge through an edge-key cache keyed by the
unordered endpoint pair and cleared at the start of each pass; after
each pass rescale every vertex to lie at exactly `radius` from the
origin; zero subdivisions returns the base tetrahedron renormalized. -/

/-- Lower bound on the dot product of two triangle corners maintained by
the subdivision: no worse than the tetrahedral angle. -/
def dotOKBound (r : ℝ) (u v : Vec3) : Prop := -(r ^ 2) / 3 ≤ u.dot v

theorem dotOKBound_symm {r : ℝ} {u v : Vec3} (h : dotOKBound r u v) :
    dotOKBound r v u := by
  rwa [dotOKBound, Vec3.dot_comm]

/-- A renormalized corner and the renormalized midpoint of an edge at
that corner subtend a nonobtuse angle. -/
theorem dotOK_corner_mid {r : ℝ} (hr : 0 < r) {u v : Vec3}
    (hu : u.norm = r) (hd : dotOKBound r u v) :
    dotOKBound r (Vec3.renormToRadius r u) (Vec3.renormToRadius r (Vec3.midpoint u v)) := by
  rw [Vec3.renormToRadius_eq_self hr hu]
  set m := Vec3.midpoint u v with hm
  have hdot : u.dot m = (r ^ 2 + u.dot v) / 2 := by
    rw [hm, Vec3.dot_midpoint_right]
    have := Vec3.normSq_of_norm_eq hu
    rw [Vec3.normSq] at this
    rw [this]
  have hfac : 0 ≤ r / m.norm := div_nonneg (le_of_lt hr) (Vec3.norm_nonneg m)
  have hdm : 0 ≤ u.dot m := by
    rw [hdot]
    rw [dotOKBound] at hd
    nlinarith [sq_nonneg r]
  rw [dotOKBound, Vec3.renormToRadius, Vec3.dot_smul_right]
  have : 0 ≤ r / m.norm * u.dot m := mul_nonneg hfac hdm
  nlinarith [sq_nonneg r]

/-- The renormalized midpoints of two edges sharing a corner subtend a
nonobtuse angle. -/
theorem dotOK_mid_mid {r : ℝ} (hr : 0 < r) {x y z : Vec3}
    (hy : y.norm = r)
    (hxy : dotOKBound r x y) (hxz : dotOKBound r x z) (hyz : dotOKBound r y z) :
    dotOKBound r (Vec3.renormToRadius r (Vec3.midpoint x y))
      (Vec3.renormToRadius r (Vec3.midpoint y z)) := by
  set m1 := Vec3.midpoint x y with hm1
  set m2 := Vec3.midpoint y z with hm2
  have hyy : y.dot y = r ^ 2 := by
    have := Vec3.normSq_of_norm_eq hy
    rwa [Vec3.normSq] at this
  have hdot : m1.dot m2 = (x.dot y + x.dot z + r ^ 2 + y.dot z) / 4 := by
    rw [hm1, hm2, Vec3.dot_midpoint_midpoint, hyy]
  have hd0 : 0 ≤ m1.dot m2 := by
    rw [hdot]
    rw [dotOKBound] at hxy hxz hyz
    nlinarith [sq_nonneg r]
  have hfac1 : 0 ≤ r / m1.norm := div_nonneg (le_of_lt hr) (Vec3.norm_nonneg m1)
  have hfac2 : 0 ≤ r / m2.norm := div_nonneg (le_of_lt hr) (Vec3.norm_nonneg m2)
  rw [dotOKBound, Vec3.renormToRadius, Vec3.renormToRadius, Vec3.dot_smul_smul]
  have : 0 ≤ r / m1.norm * (r / m2.norm) * m1.dot m2 :=
    mul_nonneg (mul_nonneg hfac1 hfac2) hd0
  nlinarith [sq_nonneg r]

/-- The mesh data produced by sphere generation: a vertex list and a
list of triangles given by vertex-index triples. -/
structure SphereMesh where
  verts : List Vec3
  tris : List (ℕ × ℕ × ℕ)

/-- Vertex of a list at an index, with the zero vector as the
out-of-range default (never reached for well-formed meshes). -/
noncomputable def vAt (verts : List Vec3) (i : ℕ) : Vec3 := verts.getD i Vec3.zero

/-- State threaded through one subdivision pass: the growing vertex
list and the edge-key cache mapping an unordered endpoint pair to the
index of its already-created midpoint vertex. -/
structure SubdivSt where
  verts : List Vec3
  cache : List ((ℕ × ℕ) × ℕ)

/-- Canonical unordered key of an edge given by two endpoint indices. -/
def edgeKey (i j : ℕ) : ℕ × ℕ := (min i j, max i j)

/-- Linear search of the edge cache. -/
def findEdge : List ((ℕ × ℕ) × ℕ) → ℕ × ℕ → Option ℕ
  | [], _ => none
  | e :: es, k => if e.1 = k then some e.2 else findEdge es k

/-- Fetch the midpoint-vertex index of an edge: reuse the cached vertex
when the shared edge was already split by a neighbouring triangle in
this pass, otherwise append a new midpoint vertex and cache it. -/
noncomputable def getMid (st : SubdivSt) (i j : ℕ) : ℕ × SubdivSt :=
  match findEdge st.cache (edgeKey i j) with
  | some k => (k, st)
  | none =>
      (st.verts.length,
        ⟨st.verts ++ [Vec3.midpoint (vAt st.verts i) (vAt st.verts j)],
         (edgeKey i j, st.verts.length) :: st.cache⟩)

/-- Split one triangle into four using the midpoints of its three
edges. -/
noncomputable def subdivTri (st : SubdivSt) (t : ℕ × ℕ × ℕ) :
    List (ℕ × ℕ × ℕ) × SubdivSt :=
  let a := t.1
  let b := t.2.1
  let c := t.2.2
  let r1 := getMid st a b
  let r2 := getMid r1.2 b c
  let r3 := getMid r2.2 c a
  ([(a, r1.1, r3.1), (r1.1, b, r2.1), (r3.1, r2.1, c), (r1.1, r2.1, r3.1)], r3.2)

/-- Split every triangle of the list, threading the vertex list and the
edge cache. -/
noncomputable def subdivTris : List (ℕ × ℕ × ℕ) → SubdivSt → List (ℕ × ℕ × ℕ) × SubdivSt
  | [], st => ([], st)
  | t :: ts, st =>
      let res := subdivTri st t
      let rest := subdivTris ts res.2
      (res.1 ++ rest.1, rest.2)

/-- One subdivision pass: split all triangles (with a cache cleared at
the start of the pass), then rescale every vertex to distance `r` from
the origin. -/
noncomputable def subdividePass (r : ℝ) (m : SphereMesh) : SphereMesh :=
  let res := subdivTris m.tris ⟨m.verts, []⟩
  ⟨res.2.verts.map (Vec3.renormToRadius r), res.1⟩

/-- Vertex table of the base tetrahedron (alternate cube corners). -/
noncomputable def tetraVerts : List Vec3 :=
  [⟨1, 1, 1⟩, ⟨1, -1, -1⟩, ⟨-1, 1, -1⟩, ⟨-1, -1, 1⟩]

/-- Facet table of the base tetrahedron. -/
def tetraTris : List (ℕ × ℕ × ℕ) := [(0, 1, 3), (0, 3, 2), (0, 2, 1), (1, 2, 3)]

/-- Modelled from the spec: `fgCreateSphere` (body absent from the
sources; declared in `Fg3dMeshOps.hpp`).  Subdivides a tetrahedron and
renormalizes the vertex distances from the origin `subdivisions`
times; zero subdivisions returns the base tetrahedron renormalized to
the given radius. -/
noncomputable def fgCreateSphere (radius : ℝ) : ℕ → SphereMesh
  | 0 => ⟨tetraVerts.map (Vec3.renormToRadius radius), tetraTris⟩
  | n + 1 => subdividePass radius (fgCreateSphere radius n)

/-! ### Invariants of the subdivision -/

theorem vAt_eq_getElem {verts : List Vec3} {i : ℕ} (h : i < verts.length) :
    vAt verts i = verts[i] := List.getD_eq_getElem verts Vec3.zero h

theorem vAt_mem {verts : List Vec3} {i : ℕ} (h : i < verts.length) :
    vAt verts i ∈ verts := by
  rw [vAt_eq_getElem h]
  exact List.getElem_mem h

theorem vAt_append_left {l1 l2 : List Vec3} {i : ℕ} (h : i < l1.length) :
    vAt (l1 ++ l2) i = vAt l1 i := by
  rw [vAt, vAt, List.getD_eq_getElem _ _ (by simp; omega), List.getD_eq_getElem _ _ h,
    List.getElem_append_left h]

theorem vAt_append_self (l : List Vec3) (v : Vec3) :
    vAt (l ++ [v]) l.length = v := by
  rw [vAt, List.getD_eq_getElem _ _ (by simp), List.getElem_append_right (Nat.le_refl _)]
  simp

theorem vAt_map {l : List Vec3} {f : Vec3 → Vec3} {i : ℕ} (h : i < l.length) :
    vAt (l.map f) i = f (vAt l i) := by
  rw [vAt, vAt, List.getD_eq_getElem _ _ (by simpa using h), List.getD_eq_getElem _ _ h,
    List.getElem_map]

theorem findEdge_mem {l : List ((ℕ × ℕ) × ℕ)} {k : ℕ × ℕ} {v : ℕ}
    (h : findEdge l k = some v) : (k, v) ∈ l := by
  induction l with
  | nil => simp [findEdge] at h
  | cons e es ih =>
    rw [findEdge] at h
    by_cases he : e.1 = k
    · rw [if_pos he] at h
      have hv : e.2 = v := Option.some.inj h
      have : e = (k, v) := by
        calc e = (e.1, e.2) := rfl
          _ = (k, v) := by rw [he, hv]
      rw [← this]
      exact List.mem_cons_self e es
    · rw [if_neg he] at h
      exact List.mem_cons_of_mem _ (ih h)

/-- Validity of a triangle against a vertex list: indices in range and
pairwise corner dot products no worse than the tetrahedral bound. -/
def TriOK (r : ℝ) (verts : List Vec3) (t : ℕ × ℕ × ℕ) : Prop :=
  t.1 < verts.length ∧ t.2.1 < verts.length ∧ t.2.2 < verts.length ∧
  dotOKBound r (vAt verts t.1) (vAt verts t.2.1) ∧
  dotOKBound r (vAt verts t.1) (vAt verts t.2.2) ∧
  dotOKBound r (vAt verts t.2.1) (vAt verts t.2.2)

/-- The mesh invariant carried across subdivision passes: all vertices
at distance `r` from the origin and all triangles valid. -/
def GoodMesh (r : ℝ) (m : SphereMesh) : Prop :=
  (∀ v ∈ m.verts, v.norm = r) ∧ ∀ t ∈ m.tris, TriOK r m.verts t

/-- Validity of an emitted (pre-renormalization) triangle: indices in
range and pairwise dot bounds after the per-pass renormalization that
ends the pass. -/
def OutTriOK (r : ℝ) (verts : List Vec3) (t : ℕ × ℕ × ℕ) : Prop :=
  t.1 < verts.length ∧ t.2.1 < verts.length ∧ t.2.2 < verts.length ∧
  dotOKBound r (Vec3.renormToRadius r (vAt verts t.1)) (Vec3.renormToRadius r (vAt verts t.2.1)) ∧
  dotOKBound r (Vec3.renormToRadius r (vAt verts t.1)) (Vec3.renormToRadius r (vAt verts t.2.2)) ∧
  dotOKBound r (Vec3.renormToRadius r (vAt verts t.2.1)) (Vec3.renormToRadius r (vAt verts t.2.2))

/-- Invariant of the pass state relative to the pass-input vertex list
`orig`: the vertex list extends `orig`, every vertex (old or newly
created midpoint) is away from the origin, and every cache entry names
original endpoints and the index of their actual midpoint. -/
def StOK (orig : List Vec3) (st : SubdivSt) : Prop :=
  (∃ tail, st.verts = orig ++ tail) ∧
  (∀ v ∈ st.verts, v ≠ Vec3.zero) ∧
  ∀ e ∈ st.cache, e.1.1 < orig.length ∧ e.1.2 < orig.length ∧
    e.2 < st.verts.length ∧
    vAt st.verts e.2 = Vec3.midpoint (vAt orig e.1.1) (vAt orig e.1.2)

theorem OutTriOK_extend {r : ℝ} {verts tail : List Vec3} {t : ℕ × ℕ × ℕ}
    (h : OutTriOK r verts t) : OutTriOK r (verts ++ tail) t := by
  obtain ⟨h1, h2, h3, h4, h5, h6⟩ := h
  refine ⟨?_, ?_, ?_, ?_, ?_, ?_⟩ <;>
    simp only [List.length_append, vAt_append_left h1, vAt_append_left h2, vAt_append_left h3]
  · omega
  · omega
  · omega
  · exact h4
  · exact h5
  · exact h6

theorem midpoint_edgeKey (orig : List Vec3) (i j : ℕ) :
    Vec3.midpoint (vAt orig (edgeKey i j).1) (vAt orig (edgeKey i j).2) =
      Vec3.midpoint (vAt orig i) (vAt orig j) := by
  rcases le_total i j with h | h
  · rw [edgeKey, min_eq_left h, max_eq_right h]
  · rw [edgeKey, min_eq_right h, max_eq_left h, Vec3.midpoint_comm]

theorem getMid_spec {r : ℝ} {orig : List Vec3} {st : SubdivSt} {i j : ℕ}
    (hr : 0 < r) (hnorm : ∀ v ∈ orig, v.norm = r)
    (hst : StOK orig st)
    (hi : i < orig.length) (hj : j < orig.length)
    (hd : dotOKBound r (vAt orig i) (vAt orig j)) :
    StOK orig (getMid st i j).2 ∧
    (∃ tail, (getMid st i j).2.verts = st.verts ++ tail) ∧
    (getMid st i j).1 < (getMid st i j).2.verts.length ∧
    vAt (getMid st i j).2.verts (getMid st i j).1 =
      Vec3.midpoint (vAt orig i) (vAt orig j) := by
  obtain ⟨⟨tail0, hext⟩, hnz, hcache⟩ := hst
  have hleno : orig.length ≤ st.verts.length := by
    rw [hext]; simp
  rw [getMid]
  rcases hfind : findEdge st.cache (edgeKey i j) with _ | k
  · -- cache miss: append a new midpoint vertex
    have hvi : vAt st.verts i = vAt orig i := by
      rw [hext, vAt_append_left hi]
    have hvj : vAt st.verts j = vAt orig j := by
      rw [hext, vAt_append_left hj]
    have hmz : Vec3.midpoint (vAt st.verts i) (vAt st.verts j) ≠ Vec3.zero := by
      rw [hvi, hvj]
      exact Vec3.midpoint_ne_zero hr (hnorm _ (vAt_mem hi)) (hnorm _ (vAt_mem hj)) hd
    refine ⟨⟨?_, ?_, ?_⟩, ⟨[Vec3.midpoint (vAt st.verts i) (vAt st.verts j)], rfl⟩, ?_, ?_⟩
    · exact ⟨tail0 ++ [Vec3.midpoint (vAt st.verts i) (vAt st.verts j)], by rw [hext]; simp⟩
    · intro v hv
      rcases List.mem_append.mp hv with hv | hv
      · exact hnz v hv
      · rcases List.mem_singleton.mp hv with rfl
        exact hmz
    · intro e he
      rcases List.mem_cons.mp he with rfl | he
      · refine ⟨by simp [edgeKey]; omega, by simp [edgeKey]; omega, by simp, ?_⟩
        rw [vAt_append_self, hvi, hvj, midpoint_edgeKey]
      · obtain ⟨he1, he2, he3, he4⟩ := hcache e he
        exact ⟨he1, he2, by simp; omega, by rw [vAt_append_left he3]; exact he4⟩
    · simp
    · rw [vAt_append_self, hvi, hvj]
  · -- cache hit: the cached index is the midpoint of this edge
    have hmem := findEdge_mem hfind
    obtain ⟨he1, he2, he3, he4⟩ := hcache _ hmem
    have heq : Vec3.midpoint (vAt orig (edgeKey i j).1) (vAt orig (edgeKey i j).2) =
        Vec3.midpoint (vAt orig i) (vAt orig j) := midpoint_edgeKey orig i j
    exact ⟨⟨⟨tail0, hext⟩, hnz, hcache⟩, ⟨[], by simp⟩, he3, by rw [he4]; exact heq⟩

theorem subdivTri_spec {r : ℝ} {orig : List Vec3} {st : SubdivSt} {t : ℕ × ℕ × ℕ}
    (hr : 0 < r) (hnorm : ∀ v ∈ orig, v.norm = r)
    (hst : StOK orig st) (ht : TriOK r orig t) :
    StOK orig (subdivTri st t).2 ∧
    (∃ tail, (subdivTri st t).2.verts = st.verts ++ tail) ∧
    ∀ u ∈ (subdivTri st t).1, OutTriOK r (subdivTri st t).2.verts u := by
  obtain ⟨ha, hb, hc, hdab, hdac, hdbc⟩ := ht
  have hva : (vAt orig t.1).norm = r := hnorm _ (vAt_mem ha)
  have hvb : (vAt orig t.2.1).norm = r := hnorm _ (vAt_mem hb)
  have hvc : (vAt orig t.2.2).norm = r := hnorm _ (vAt_mem hc)
  obtain ⟨hst1, ⟨tl1, hext1⟩, hk1lt, hk1v⟩ := getMid_spec hr hnorm hst ha hb hdab
  obtain ⟨hst2, ⟨tl2, hext2⟩, hk2lt, hk2v⟩ := getMid_spec hr hnorm hst1 hb hc hdbc
  obtain ⟨hst3, ⟨tl3, hext3⟩, hk3lt, hk3v⟩ :=
    getMid_spec hr hnorm hst2 hc ha (dotOKBound_symm hdac)
  simp only [subdivTri]
  obtain ⟨tlf, hextf⟩ := hst3.1
  have hlenf : orig.length ≤ (getMid (getMid (getMid st t.1 t.2.1).2 t.2.1 t.2.2).2 t.2.2 t.1).2.verts.length := by
    rw [hextf]; simp
  -- index stability into the final vertex list
  have hext13 : (getMid (getMid (getMid st t.1 t.2.1).2 t.2.1 t.2.2).2 t.2.2 t.1).2.verts =
      (getMid st t.1 t.2.1).2.verts ++ (tl2 ++ tl3) := by
    rw [hext3, hext2, List.append_assoc]
  have hext23 : (getMid (getMid (getMid st t.1 t.2.1).2 t.2.1 t.2.2).2 t.2.2 t.1).2.verts =
      (getMid (getMid st t.1 t.2.1).2 t.2.1 t.2.2).2.verts ++ tl3 := hext3
  have hvk1 : vAt (getMid (getMid (getMid st t.1 t.2.1).2 t.2.1 t.2.2).2 t.2.2 t.1).2.verts
      (getMid st t.1 t.2.1).1 = Vec3.midpoint (vAt orig t.1) (vAt orig t.2.1) := by
    rw [hext13, vAt_append_left hk1lt, hk1v]
  have hvk2 : vAt (getMid (getMid (getMid st t.1 t.2.1).2 t.2.1 t.2.2).2 t.2.2 t.1).2.verts
      (getMid (getMid st t.1 t.2.1).2 t.2.1 t.2.2).1 =
      Vec3.midpoint (vAt orig t.2.1) (vAt orig t.2.2) := by
    rw [hext23, vAt_append_left hk2lt, hk2v]
  have hvk3 : vAt (getMid (getMid (getMid st t.1 t.2.1).2 t.2.1 t.2.2).2 t.2.2 t.1).2.verts
      (getMid (getMid (getMid st t.1 t.2.1).2 t.2.1 t.2.2).2 t.2.2 t.1).1 =
      Vec3.midpoint (vAt orig t.2.2) (vAt orig t.1) := hk3v
  have hvA : vAt (getMid (getMid (getMid st t.1 t.2.1).2 t.2.1 t.2.2).2 t.2.2 t.1).2.verts t.1 =
      vAt orig t.1 := by rw [hextf, vAt_append_left ha]
  have hvB : vAt (getMid (getMid (getMid st t.1 t.2.1).2 t.2.1 t.2.2).2 t.2.2 t.1).2.verts t.2.1 =
      vAt orig t.2.1 := by rw [hextf, vAt_append_left hb]
  have hvC : vAt (getMid (getMid (getMid st t.1 t.2.1).2 t.2.1 t.2.2).2 t.2.2 t.1).2.verts t.2.2 =
      vAt orig t.2.2 := by rw [hextf, vAt_append_left hc]
  have hlk1 : (getMid st t.1 t.2.1).1 <
      (getMid (getMid (getMid st t.1 t.2.1).2 t.2.1 t.2.2).2 t.2.2 t.1).2.verts.length := by
    rw [hext13]; simp only [List.length_append]; omega
  have hlk2 : (getMid (getMid st t.1 t.2.1).2 t.2.1 t.2.2).1 <
      (getMid (getMid (getMid st t.1 t.2.1).2 t.2.1 t.2.2).2 t.2.2 t.1).2.verts.length := by
    rw [hext23]; simp only [List.length_append]; omega
  -- the twelve pairwise dot bounds of the four emitted triangles
  have dA_k1 : dotOKBound r (Vec3.renormToRadius r (vAt orig t.1))
      (Vec3.renormToRadius r (Vec3.midpoint (vAt orig t.1) (vAt orig t.2.1))) :=
    dotOK_corner_mid hr hva hdab
  have dA_k3 : dotOKBound r (Vec3.renormToRadius r (vAt orig t.1))
      (Vec3.renormToRadius r (Vec3.midpoint (vAt orig t.2.2) (vAt orig t.1))) := by
    rw [Vec3.midpoint_comm]
    exact dotOK_corner_mid hr hva hdac
  have dk1_k3 : dotOKBound r
      (Vec3.renormToRadius r (Vec3.midpoint (vAt orig t.1) (vAt orig t.2.1)))
      (Vec3.renormToRadius r (Vec3.midpoint (vAt orig t.2.2) (vAt orig t.1))) := by
    rw [Vec3.midpoint_comm (vAt orig t.1), Vec3.midpoint_comm (vAt orig t.2.2)]
    exact dotOK_mid_mid hr hva (dotOKBound_symm hdab) hdbc hdac
  have dk1_B : dotOKBound r
      (Vec3.renormToRadius r (Vec3.midpoint (vAt orig t.1) (vAt orig t.2.1)))
      (Vec3.renormToRadius r (vAt orig t.2.1)) := by
    rw [Vec3.midpoint_comm]
    exact dotOKBound_symm (dotOK_corner_mid hr hvb (dotOKBound_symm hdab))
  have dB_k2 : dotOKBound r (Vec3.renormToRadius r (vAt orig t.2.1))
      (Vec3.renormToRadius r (Vec3.midpoint (vAt orig t.2.1) (vAt orig t.2.2))) :=
    dotOK_corner_mid hr hvb hdbc
  have dk1_k2 : dotOKBound r
      (Vec3.renormToRadius r (Vec3.midpoint (vAt orig t.1) (vAt orig t.2.1)))
      (Vec3.renormToRadius r (Vec3.midpoint (vAt orig t.2.1) (vAt orig t.2.2))) :=
    dotOK_mid_mid hr hvb hdab hdac hdbc
  have dk3_k2 : dotOKBound r
      (Vec3.renormToRadius r (Vec3.midpoint (vAt orig t.2.2) (vAt orig t.1)))
      (Vec3.renormToRadius r (Vec3.midpoint (vAt orig t.2.1) (vAt orig t.2.2))) := by
    rw [Vec3.midpoint_comm (vAt orig t.2.2), Vec3.midpoint_comm (vAt orig t.2.1)]
    exact dotOK_mid_mid hr hvc hdac hdab (dotOKBound_symm hdbc)
  have dk3_C : dotOKBound r
      (Vec3.renormToRadius r (Vec3.midpoint (vAt orig t.2.2) (vAt orig t.1)))
      (Vec3.renormToRadius r (vAt orig t.2.2)) :=
    dotOKBound_symm (dotOK_corner_mid hr hvc (dotOKBound_symm hdac))
  have dk2_C : dotOKBound r
      (Vec3.renormToRadius r (Vec3.midpoint (vAt orig t.2.1) (vAt orig t.2.2)))
      (Vec3.renormToRadius r (vAt orig t.2.2)) := by
    rw [Vec3.midpoint_comm]
    exact dotOKBound_symm (dotOK_corner_mid hr hvc (dotOKBound_symm hdbc))
  have dk2_k3 : dotOKBound r
      (Vec3.renormToRadius r (Vec3.midpoint (vAt orig t.2.1) (vAt orig t.2.2)))
      (Vec3.renormToRadius r (Vec3.midpoint (vAt orig t.2.2) (vAt orig t.1))) :=
    dotOK_mid_mid hr hvc hdbc (dotOKBound_symm hdab) (dotOKBound_symm hdac)
  refine ⟨hst3, ⟨tl1 ++ (tl2 ++ tl3), by rw [hext3, hext2, hext1]; simp⟩, ?_⟩
  intro u hu
  simp only [List.mem_cons, List.mem_singleton, List.not_mem_nil, or_false] at hu
  rcases hu with rfl | rfl | rfl | rfl
  · exact ⟨lt_of_lt_of_le ha hlenf, hlk1, hk3lt,
      by rw [hvA, hvk1]; exact dA_k1,
      by rw [hvA, hvk3]; exact dA_k3,
      by rw [hvk1, hvk3]; exact dk1_k3⟩
  · exact ⟨hlk1, lt_of_lt_of_le hb hlenf, hlk2,
      by rw [hvk1, hvB]; exact dk1_B,
      by rw [hvk1, hvk2]; exact dk1_k2,
      by rw [hvB, hvk2]; exact dB_k2⟩
  · exact ⟨hk3lt, hlk2, lt_of_lt_of_le hc hlenf,
      by rw [hvk3, hvk2]; exact dk3_k2,
      by rw [hvk3, hvC]; exact dk3_C,
      by rw [hvk2, hvC]; exact dk2_C⟩
  · exact ⟨hlk1, hlk2, hk3lt,
      by rw [hvk1, hvk2]; exact dk1_k2,
      by rw [hvk1, hvk3]; exact dk1_k3,
      by rw [hvk2, hvk3]; exact dk2_k3⟩

theorem subdivTris_spec {r : ℝ} {orig : List Vec3} (hr : 0 < r)
    (hnorm : ∀ v ∈ orig, v.norm = r) :
    ∀ (ts : List (ℕ × ℕ × ℕ)) (st : SubdivSt), StOK orig st →
    (∀ t ∈ ts, TriOK r orig t) →
    StOK orig (subdivTris ts st).2 ∧
    (∃ tail, (subdivTris ts st).2.verts = st.verts ++ tail) ∧
    ∀ u ∈ (subdivTris ts st).1, OutTriOK r (subdivTris ts st).2.verts u := by
  intro ts
  induction ts with
  | nil =>
    intro st hst _
    exact ⟨hst, ⟨[], by simp [subdivTris]⟩, by simp [subdivTris]⟩
  | cons t ts ih =>
    intro st hst hts
    obtain ⟨h1, ⟨tlA, hA⟩, hnew⟩ := subdivTri_spec hr hnorm hst (hts t (by simp))
    obtain ⟨h2, ⟨tlB, hB⟩, hrest⟩ :=
      ih (subdivTri st t).2 h1 (fun u hu => hts u (by simp [hu]))
    simp only [subdivTris]
    refine ⟨h2, ⟨tlA ++ tlB, by rw [hB, hA]; simp⟩, ?_⟩
    intro u hu
    rcases List.mem_append.mp hu with hu | hu
    · rw [hB]
      exact OutTriOK_extend (hnew u hu)
    · exact hrest u hu

theorem subdividePass_good {r : ℝ} (hr : 0 < r) {m : SphereMesh}
    (hm : GoodMesh r m) : GoodMesh r (subdividePass r m) := by
  obtain ⟨hverts, htris⟩ := hm
  have hst0 : StOK m.verts ⟨m.verts, []⟩ :=
    ⟨⟨[], by simp⟩, fun v hv => Vec3.ne_zero_of_norm_eq hr (hverts v hv), by simp⟩
  obtain ⟨hstF, _, hout⟩ := subdivTris_spec hr hverts m.tris ⟨m.verts, []⟩ hst0 htris
  constructor
  · intro v hv
    simp only [subdividePass, List.mem_map] at hv
    obtain ⟨w, hw, rfl⟩ := hv
    exact Vec3.norm_renormToRadius hr (hstF.2.1 w hw)
  · intro t htmem
    simp only [subdividePass] at htmem
    obtain ⟨h1, h2, h3, h4, h5, h6⟩ := hout t htmem
    simp only [subdividePass, TriOK, List.length_map]
    exact ⟨h1, h2, h3,
      by rw [vAt_map h1, vAt_map h2]; exact h4,
      by rw [vAt_map h1, vAt_map h3]; exact h5,
      by rw [vAt_map h2, vAt_map h3]; exact h6⟩

/-! ### Base tetrahedron facts -/

theorem tetraVerts_normSq : ∀ v ∈ tetraVerts, v.normSq = 3 := by
  intro v hv
  simp only [tetraVerts, List.mem_cons, List.not_mem_nil, or_false] at hv
  rcases hv with rfl | rfl | rfl | rfl <;> norm_num [Vec3.normSq, Vec3.dot]

theorem tetra_dotOK {r : ℝ} {u v : Vec3}
    (hu : u.normSq = 3) (hv : v.normSq = 3) (hd : u.dot v = -1) :
    dotOKBound r (Vec3.renormToRadius r u) (Vec3.renormToRadius r v) := by
  have hnu : u.norm = Real.sqrt 3 := by rw [Vec3.norm, hu]
  have hnv : v.norm = Real.sqrt 3 := by rw [Vec3.norm, hv]
  have h3 : Real.sqrt 3 * Real.sqrt 3 = 3 := Real.mul_self_sqrt (by norm_num)
  rw [dotOKBound, Vec3.renormToRadius, Vec3.renormToRadius, Vec3.dot_smul_smul, hd, hnu, hnv,
    div_mul_div_comm, h3]
  have hrr : r * r = r ^ 2 := by ring
  rw [hrr]
  linarith [sq_nonneg r]

theorem tetra_vAt_dotOK {r : ℝ} {i j : ℕ}
    (hi : i < 4) (hj : j < 4) (hij : i ≠ j) :
    dotOKBound r (vAt (tetraVerts.map (Vec3.renormToRadius r)) i)
      (vAt (tetraVerts.map (Vec3.renormToRadius r)) j) := by
  have hi4 : i < tetraVerts.length := by simp only [tetraVerts]; simpa using hi
  have hj4 : j < tetraVerts.length := by simp only [tetraVerts]; simpa using hj
  rw [vAt_map hi4, vAt_map hj4]
  apply tetra_dotOK (tetraVerts_normSq _ (vAt_mem hi4)) (tetraVerts_normSq _ (vAt_mem hj4))
  interval_cases i <;> interval_cases j <;>
    first
      | exact absurd rfl hij
      | norm_num [vAt, tetraVerts, Vec3.dot]

theorem fgCreateSphere_zero_good {r : ℝ} (hr : 0 < r) : GoodMesh r (fgCreateSphere r 0) := by
  constructor
  · intro v hv
    simp only [fgCreateSphere, List.mem_map] at hv
    obtain ⟨w, hw, rfl⟩ := hv
    have hw3 : w.normSq = 3 := tetraVerts_normSq w hw
    have hwz : w ≠ Vec3.zero := by
      intro hz
      rw [hz, Vec3.normSq_zero] at hw3
      norm_num at hw3
    exact Vec3.norm_renormToRadius hr hwz
  · intro t ht
    have hlen : (tetraVerts.map (Vec3.renormToRadius r)).length = 4 := by
      simp [tetraVerts]
    simp only [fgCreateSphere, tetraTris, List.mem_cons, List.not_mem_nil, or_false] at ht ⊢
    rcases ht with rfl | rfl | rfl | rfl <;>
      exact ⟨by rw [hlen]; norm_num, by rw [hlen]; norm_num, by rw [hlen]; norm_num,
        tetra_vAt_dotOK (by norm_num) (by norm_num) (by norm_num),
        tetra_vAt_dotOK (by norm_num) (by norm_num) (by norm_num),
        tetra_vAt_dotOK (by norm_num) (by norm_num) (by norm_num)⟩

theorem fgCreateSphere_good {r : ℝ} (hr : 0 < r) : ∀ n, GoodMesh r (fgCreateSphere r n)
  | 0 => fgCreateSphere_zero_good hr
  | n + 1 => subdividePass_good hr (fgCreateSphere_good hr n)

/-- C1: for every radius r > 0 and every subdivision count n ≥ 0, every
vertex of the mesh returned by `fgCreateSphere r n` lies at distance
exactly r from the origin (the exact-real counterpart of the
floating-point-tolerance statement): after each subdivision pass every
vertex is renormalized to the radius, and n = 0 returns the base
tetrahedron renormalized to r. -/
theorem fgCreateSphere_radius_invariant (r : ℝ) (n : ℕ) (hr : 0 < r) :
    ∀ v ∈ (fgCreateSphere r n).verts, v.norm = r :=
  (fgCreateSphere_good hr n).1

/-- Witness for C1 at radius 1 with two subdivision passes. -/
theorem fgCreateSphere_radius_invariant_witness :
    (0 : ℝ) < 1 ∧ ∀ v ∈ (fgCreateSphere 1 2).verts, v.norm = 1 :=
  ⟨one_pos, fgCreateSphere_radius_invariant 1 2 one_pos⟩

/-! ## Mesh data model and operations (`Fg3dMeshOps.hpp`)

Modelled from the spec: only the header with the declarations of
`fgMergeMeshSurfaces` and `fgApplyExpression` is present in the
sources, so the data model follows section 3 of the specification and
the operation bodies follow sections 4.2 and 4.7. -/

/-- A 2D texture coordinate (UV). -/
structure Vec2 where
  u : ℝ
  v : ℝ

/-- A facet: ordered vertex indices plus an optional parallel list of
UV indices. -/
structure FgFacet where
  vertInds : List ℕ
  uvInds : List ℕ

/-- A named surface: an ordered facet list and named surface points
tied to facet indices. -/
structure FgSurface where
  name : String
  facets : List FgFacet
  surfPoints : List (String × ℕ)

/-- A morph target: a name plus either a dense per-vertex delta list
aligned 1:1 with the base vertices, or a sparse list of
(vertex index, delta) pairs. -/
inductive FgMorphTgt
  | dense (name : String) (deltas : List Vec3)
  | sparse (name : String) (deltas : List (ℕ × Vec3))

/-- Name of a morph target. -/
def FgMorphTgt.tgtName : FgMorphTgt → String
  | .dense n _ => n
  | .sparse n _ => n

/-- The mesh: vertex list, UV list, surfaces, marked vertices, morph
targets. -/
structure Fg3dMesh where
  verts : List Vec3
  uvs : List Vec2
  surfaces : List FgSurface
  markedVerts : List (ℕ × String)
  morphs : List FgMorphTgt

/-- Modelled from the spec: `fgMergeMeshSurfaces` (body absent from the
sources; declared in `Fg3dMeshOps.hpp`).  Requires identically sized
vertex lists, else fails with a vertex-count-mismatch error; the result
keeps the vertex and UV lists of the first mesh, and the surfaces of
both meshes are concatenated. -/
noncomputable def fgMergeMeshSurfaces (m0 m1 : Fg3dMesh) : Except String Fg3dMesh :=
  if m0.verts.length = m1.verts.length then
    .ok { verts := m0.verts, uvs := m0.uvs, surfaces := m0.surfaces ++ m1.surfaces,
          markedVerts := m0.markedVerts, morphs := m0.morphs }
  else
    .error "fgMergeMeshSurfaces: vertex count mismatch"

/-- A weight entry of an expression: a morph-target name and a scalar
(0 for no change, 1 for full application). -/
structure FgMorphVal where
  name : String
  val : ℝ

/-- First morph target of the list carrying the given name, if any. -/
def findMorph (morphs : List FgMorphTgt) (n : String) : Option FgMorphTgt :=
  morphs.find? (fun m => m.tgtName == n)

/-- Accumulate one weighted sparse delta list into the vertex
positions; only listed indices contribute. -/
noncomputable def applySparse (w : ℝ) : List Vec3 → List (ℕ × Vec3) → List Vec3
  | acc, [] => acc
  | acc, (i, d) :: rest =>
      applySparse w (acc.set i (Vec3.add (vAt acc i) (Vec3.smul w d))) rest

/-- Accumulate one weighted morph target into the vertex positions:
dense deltas are index-aligned, sparse ones update only listed
indices. -/
noncomputable def applyMorphTgt (acc : List Vec3) (w : ℝ) : FgMorphTgt → List Vec3
  | .dense _ deltas => List.zipWith (fun a d => Vec3.add a (Vec3.smul w d)) acc deltas
  | .sparse _ deltas => applySparse w acc deltas

/-- Modelled from the spec: `fgApplyExpression` (body absent from the
sources; declared in `Fg3dMeshOps.hpp`).  For each (name, weight)
entry, look up the named morph target (first match) and silently skip
the entry when the mesh has no target of that name; matched targets
contribute weight-scaled deltas on top of the base vertex positions;
the result is a new vertex-position list. -/
noncomputable def fgApplyExpression (mesh : Fg3dMesh) (expression : List FgMorphVal) :
    List Vec3 :=
  expression.foldl
    (fun acc e =>
      match findMorph mesh.morphs e.name with
      | none => acc
      | some t => applyMorphTgt acc e.val t)
    mesh.verts

/-- C2: `fgMergeMeshSurfaces m0 m1` fails with a vertex-count-mismatch
error exactly when the vertex counts differ; with equal counts it
succeeds and the result keeps the vertex and UV lists of `m0`, and the
vertex and UV lists of `m1` are never used (replacing them by any
other lists of the same vertex count leaves the result unchanged). -/
theorem fgMergeMeshSurfaces_spec (m0 m1 : Fg3dMesh) :
    (m0.verts.length ≠ m1.verts.length →
      fgMergeMeshSurfaces m0 m1 = .error "fgMergeMeshSurfaces: vertex count mismatch") ∧
    (m0.verts.length = m1.verts.length →
      ∃ m, fgMergeMeshSurfaces m0 m1 = .ok m ∧ m.verts = m0.verts ∧ m.uvs = m0.uvs) ∧
    ∀ (vs : List Vec3) (us : List Vec2), vs.length = m1.verts.length →
      fgMergeMeshSurfaces m0
        { verts := vs, uvs := us, surfaces := m1.surfaces,
          markedVerts := m1.markedVerts, morphs := m1.morphs } =
        fgMergeMeshSurfaces m0 m1 := by
  refine ⟨fun h => ?_, fun h => ?_, fun vs us hlen => ?_⟩
  · rw [fgMergeMeshSurfaces, if_neg h]
  · refine ⟨⟨m0.verts, m0.uvs, m0.surfaces ++ m1.surfaces, m0.markedVerts, m0.morphs⟩,
      ?_, rfl, rfl⟩
    rw [fgMergeMeshSurfaces, if_pos h]
  · by_cases h : m0.verts.length = m1.verts.length
    · rw [fgMergeMeshSurfaces, fgMergeMeshSurfaces, if_pos h, if_pos (by rw [hlen]; exact h)]
    · rw [fgMergeMeshSurfaces, fgMergeMeshSurfaces, if_neg h, if_neg (by rw [hlen]; exact h)]

/-- Witness for C2: both branches at concrete meshes. -/
theorem fgMergeMeshSurfaces_spec_witness :
    (let e0 : Fg3dMesh := ⟨[], [], [], [], []⟩
     let e1 : Fg3dMesh := ⟨[⟨0, 0, 0⟩], [], [], [], []⟩
     fgMergeMeshSurfaces e0 e1 = .error "fgMergeMeshSurfaces: vertex count mismatch") ∧
    (let e0 : Fg3dMesh := ⟨[], [], [], [], []⟩
     ∃ m, fgMergeMeshSurfaces e0 e0 = .ok m ∧ m.verts = e0.verts ∧ m.uvs = e0.uvs) :=
  ⟨(fgMergeMeshSurfaces_spec ⟨[], [], [], [], []⟩ ⟨[⟨0, 0, 0⟩], [], [], [], []⟩).1
      (by simp),
   (fgMergeMeshSurfaces_spec ⟨[], [], [], [], []⟩ ⟨[], [], [], [], []⟩).2.1 rfl⟩

/-- C3: an expression entry whose name matches no morph target of the
mesh is skipped without error, so supplying the unknown entry alongside
the others yields the same vertex-position result as omitting it. -/
theorem fgApplyExpression_skips_unknown (mesh : Fg3dMesh) (pre post : List FgMorphVal)
    (e : FgMorphVal) (h : ∀ t ∈ mesh.morphs, t.tgtName ≠ e.name) :
    fgApplyExpression mesh (pre ++ e :: post) = fgApplyExpression mesh (pre ++ post) := by
  have hfind : findMorph mesh.morphs e.name = none := by
    rw [findMorph, List.find?_eq_none]
    intro t ht
    simpa using h t ht
  rw [fgApplyExpression, fgApplyExpression, List.foldl_append, List.foldl_append,
    List.foldl_cons, hfind]

/-- Witness for C3: a mesh with one morph target and an expression
containing an entry with an unmatched name. -/
theorem fgApplyExpression_skips_unknown_witness :
    (∀ t ∈ (⟨[], [], [], [], [.dense "smile" []]⟩ : Fg3dMesh).morphs,
      t.tgtName ≠ "unknown") ∧
    fgApplyExpression ⟨[], [], [], [], [.dense "smile" []]⟩
        ([⟨"smile", 1⟩] ++ ⟨"unknown", 1⟩ :: []) =
      fgApplyExpression ⟨[], [], [], [], [.dense "smile" []]⟩ ([⟨"smile", 1⟩] ++ []) := by
  have h : ∀ t ∈ (⟨[], [], [], [], [.dense "smile" []]⟩ : Fg3dMesh).morphs,
      t.tgtName ≠ "unknown" := by
    intro t ht
    simp only [List.mem_singleton] at ht
    rw [ht]
    decide
  exact ⟨h, fgApplyExpression_skips_unknown _ [⟨"smile", 1⟩] [] ⟨"unknown", 1⟩ h⟩

/-! ## Win32 dialog shell (`FgGuiWinDialogs.cpp`)

The dialog functions are embedded from the source as pure functions
over an oracle describing the outcomes of the COM/shell calls and the
user action.  A thrown `FGASSERT`/`FGASSERTWIN` is an `Except.error`;
alongside the result each embedding returns the ordered trace of
acquire/release events, with the `FgScopeGuard` release of the
`IFileDialog` emitted on every exit path reached after the guard is
constructed (normal return or unwinding), as C++ scope unwinding
does. -/

/-- Resource events of a dialog-shell call. -/
inductive DlgEvent
  | acquireDialog
  | releaseDialog
  | showDialog
  | acquireItem
  | releaseItem
deriving DecidableEq, Repr

/-- Outcomes of the COM/shell calls made by the file-dialog functions:
whether each HRESULT-returning setup call succeeds, whether `Show`
returns success (the user confirmed a selection rather than
cancelling), whether `GetResult` succeeds, and the path delivered by
`GetDisplayName` (none models failure or a null path). -/
structure FileDlgOracle where
  coCreateOk : Bool
  setClientGuidOk : Bool
  getOptionsOk : Bool
  setOptionsOk : Bool
  setFileTypesOk : Bool
  setFileTypeIndexOk : Bool
  showOk : Bool
  getResultOk : Bool
  displayName : Option String
deriving Repr

/-- Diagnostic of the empty-extension-list assertion in
`fgGuiDialogFileLoad`. -/
def emptyExtsMsg : String := "FGASSERT failed: !extensions.empty()"

/-- Diagnostic of the empty-extension assertion in
`fgGuiDialogFileSave`. -/
def emptyExtMsg : String := "FGASSERT failed: !extension.empty()"

/-- Diagnostic of a failed `FGASSERTWIN`. -/
def winAssertMsg : String := "FGASSERTWIN failed"

/-- Body of `fgGuiDialogFileLoad` between guard construction and
return: the asserted setup calls, the blocking `Show`, and result
retrieval with release of the `IShellItem` on both of its paths. -/
def loadBody (o : FileDlgOracle) : Except String (Option String) × List DlgEvent :=
  if !o.setClientGuidOk then (.error winAssertMsg, [])
  else if !o.getOptionsOk then (.error winAssertMsg, [])
  else if !o.setOptionsOk then (.error winAssertMsg, [])
  else if !o.setFileTypesOk then (.error winAssertMsg, [])
  else if !o.setFileTypeIndexOk then (.error winAssertMsg, [])
  else if !o.showOk then (.ok none, [.showDialog])
  else if !o.getResultOk then (.ok none, [.showDialog])
  else
    match o.displayName with
    | some p => (.ok (some p), [.showDialog, .acquireItem, .releaseItem])
    | none => (.ok none, [.showDialog, .acquireItem, .releaseItem])

/-- Embedding of `fgGuiDialogFileLoad`: assert the extension list
nonempty, acquire the dialog (asserting creation succeeded), run the
body under the scope guard that releases the dialog on every exit
path, and return the optionally selected path. -/
def fgGuiDialogFileLoad (extensions : List String) (o : FileDlgOracle) :
    Except String (Option String) × List DlgEvent :=
  if extensions.isEmpty then (.error emptyExtsMsg, [])
  else if !o.coCreateOk then (.error winAssertMsg, [])
  else ((loadBody o).1, .acquireDialog :: (loadBody o).2 ++ [.releaseDialog])

/-- Body of `fgGuiDialogFileSave` between guard construction and
return.  `SetDefaultExtension` has its result ignored in the source,
so no assertion models it. -/
def saveBody (o : FileDlgOracle) : Except String (Option String) × List DlgEvent :=
  if !o.setClientGuidOk then (.error winAssertMsg, [])
  else if !o.getOptionsOk then (.error winAssertMsg, [])
  else if !o.setOptionsOk then (.error winAssertMsg, [])
  else if !o.setFileTypesOk then (.error winAssertMsg, [])
  else if !o.setFileTypeIndexOk then (.error winAssertMsg, [])
  else if !o.showOk then (.ok none, [.showDialog])
  else if !o.getResultOk then (.ok none, [.showDialog])
  else
    match o.displayName with
    | some p => (.ok (some p), [.showDialog, .acquireItem, .releaseItem])
    | none => (.ok none, [.showDialog, .acquireItem, .releaseItem])

/-- Embedding of `fgGuiDialogFileSave`: assert the extension nonempty,
then proceed as the load dialog does. -/
def fgGuiDialogFileSave (extension : String) (o : FileDlgOracle) :
    Except String (Option String) × List DlgEvent :=
  if extension = "" then (.error emptyExtMsg, [])
  else if !o.coCreateOk then (.error winAssertMsg, [])
  else ((saveBody o).1, .acquireDialog :: (saveBody o).2 ++ [.releaseDialog])

/-- Trailing slash marking a directory path (model of
`fgAsDirectory`). -/
def fgAsDirectory (s : String) : String := s ++ "/"

/-- Body of `fgGuiDialogDirSelect` between guard construction and
return.  Mirrors the source exactly: when `GetDisplayName` succeeds the
function returns early with the directory path, skipping the
`psiResult->Release()` call that only runs on the failure path. -/
def dirSelectBody (o : FileDlgOracle) : Except String (Option String) × List DlgEvent :=
  if !o.getOptionsOk then (.error winAssertMsg, [])
  else if !o.setOptionsOk then (.error winAssertMsg, [])
  else if !o.showOk then (.ok none, [.showDialog])
  else if !o.getResultOk then (.ok none, [.showDialog])
  else
    match o.displayName with
    | some p => (.ok (some (fgAsDirectory p)), [.showDialog, .acquireItem])
    | none => (.ok none, [.showDialog, .acquireItem, .releaseItem])

/-- Embedding of `fgGuiDialogDirSelect`. -/
def fgGuiDialogDirSelect (o : FileDlgOracle) :
    Except String (Option String) × List DlgEvent :=
  if !o.coCreateOk then (.error winAssertMsg, [])
  else ((dirSelectBody o).1, .acquireDialog :: (dirSelectBody o).2 ++ [.releaseDialog])

/-- An oracle in which every COM call succeeds and the user confirms a
selection delivered as the given path. -/
def allOkOracle (p : String) : FileDlgOracle :=
  ⟨true, true, true, true, true, true, true, true, some p⟩

/-- C4: the file-choose and file-save dialogs are synchronous calls
returning an optional path: under normal shell operation (setup calls
succeed), cancelling yields no value, and confirming a selection whose
path the shell delivers yields that path. -/
theorem fileDialogs_optional_path (extensions : List String) (extension : String)
    (o : FileDlgOracle) (p : String)
    (hexts : ¬ extensions.isEmpty) (hext : extension ≠ "")
    (hsetup : o.coCreateOk = true ∧ o.setClientGuidOk = true ∧ o.getOptionsOk = true ∧
      o.setOptionsOk = true ∧ o.setFileTypesOk = true ∧ o.setFileTypeIndexOk = true) :
    (o.showOk = false →
      (fgGuiDialogFileLoad extensions o).1 = .ok none ∧
      (fgGuiDialogFileSave extension o).1 = .ok none) ∧
    (o.showOk = true → o.getResultOk = true → o.displayName = some p →
      (fgGuiDialogFileLoad extensions o).1 = .ok (some p) ∧
      (fgGuiDialogFileSave extension o).1 = .ok (some p)) := by
  obtain ⟨h1, h2, h3, h4, h5, h6⟩ := hsetup
  constructor
  · intro hshow
    constructor
    · rw [fgGuiDialogFileLoad, if_neg (by simpa using hexts), if_neg (by rw [h1]; simp)]
      simp [loadBody, h2, h3, h4, h5, h6, hshow]
    · rw [fgGuiDialogFileSave, if_neg hext, if_neg (by rw [h1]; simp)]
      simp [saveBody, h2, h3, h4, h5, h6, hshow]
  · intro hshow hres hname
    constructor
    · rw [fgGuiDialogFileLoad, if_neg (by simpa using hexts), if_neg (by rw [h1]; simp)]
      simp [loadBody, h2, h3, h4, h5, h6, hshow, hres, hname]
    · rw [fgGuiDialogFileSave, if_neg hext, if_neg (by rw [h1]; simp)]
      simp [saveBody, h2, h3, h4, h5, h6, hshow, hres, hname]

/-- Witness for C4: concrete cancel and confirm runs. -/
theorem fileDialogs_optional_path_witness :
    ((fgGuiDialogFileLoad ["txt"] (allOkOracle "a.txt")).1 = .ok (some "a.txt") ∧
      (fgGuiDialogFileSave "txt" (allOkOracle "a.txt")).1 = .ok (some "a.txt")) ∧
    ((fgGuiDialogFileLoad ["txt"] ⟨true, true, true, true, true, true, false, true, none⟩).1 =
        .ok none ∧
      (fgGuiDialogFileSave "txt" ⟨true, true, true, true, true, true, false, true, none⟩).1 =
        .ok none) :=
  ⟨(fileDialogs_optional_path ["txt"] "txt" (allOkOracle "a.txt") "a.txt" (by decide)
      (by decide) (by exact ⟨rfl, rfl, rfl, rfl, rfl, rfl⟩)).2 rfl rfl rfl,
   (fileDialogs_optional_path ["txt"] "txt" ⟨true, true, true, true, true, true, false, true, none⟩
      "" (by decide) (by decide) (by exact ⟨rfl, rfl, rfl, rfl, rfl, rfl⟩)).1 rfl⟩

/-- C5: an empty extension list (load) or empty extension string
(save) fails fast with the assertion diagnostic before any dialog work
(the trace is empty, so no dialog is created or shown, and nothing is
retried); for every non-empty extension input the empty-extension
assertion branch is unreachable. -/
theorem fileDialogs_empty_extension_assert (extensions : List String) (extension : String)
    (o : FileDlgOracle) :
    (extensions.isEmpty → fgGuiDialogFileLoad extensions o = (.error emptyExtsMsg, [])) ∧
    (extension = "" → fgGuiDialogFileSave extension o = (.error emptyExtMsg, [])) ∧
    (¬ extensions.isEmpty → (fgGuiDialogFileLoad extensions o).1 ≠ .error emptyExtsMsg) ∧
    (extension ≠ "" → (fgGuiDialogFileSave extension o).1 ≠ .error emptyExtMsg) := by
  refine ⟨fun h => ?_, fun h => ?_, fun h => ?_, fun h => ?_⟩
  · rw [fgGuiDialogFileLoad, if_pos h]
  · rw [fgGuiDialogFileSave, if_pos h]
  · rw [fgGuiDialogFileLoad, if_neg h]
    by_cases hc : o.coCreateOk
    · rw [if_neg (by rw [hc]; simp)]
      rw [loadBody]
      split_ifs <;> try simp [emptyExtsMsg, winAssertMsg]
      rcases o.displayName with _ | p <;> simp
    · rw [if_pos (by simp only [Bool.not_eq_true] at hc; rw [hc]; rfl)]
      simp [emptyExtsMsg, winAssertMsg]
  · rw [fgGuiDialogFileSave, if_neg h]
    by_cases hc : o.coCreateOk
    · rw [if_neg (by rw [hc]; simp)]
      rw [saveBody]
      split_ifs <;> try simp [emptyExtMsg, winAssertMsg]
      rcases o.displayName with _ | p <;> simp
    · rw [if_pos (by simp only [Bool.not_eq_true] at hc; rw [hc]; rfl)]
      simp [emptyExtMsg, winAssertMsg]

/-- Witness for C5: the assertion fires on the empty input and the
non-empty input never produces the empty-extension diagnostic. -/
theorem fileDialogs_empty_extension_assert_witness :
    (fgGuiDialogFileLoad [] (allOkOracle "p") = (.error emptyExtsMsg, []) ∧
      fgGuiDialogFileSave "" (allOkOracle "p") = (.error emptyExtMsg, [])) ∧
    ((fgGuiDialogFileLoad ["obj"] (allOkOracle "p")).1 ≠ .error emptyExtsMsg ∧
      (fgGuiDialogFileSave "obj" (allOkOracle "p")).1 ≠ .error emptyExtMsg) :=
  ⟨⟨(fileDialogs_empty_extension_assert [] "" (allOkOracle "p")).1 rfl,
    (fileDialogs_empty_extension_assert [] "" (allOkOracle "p")).2.1 rfl⟩,
   ⟨(fileDialogs_empty_extension_assert ["obj"] "obj" (allOkOracle "p")).2.2.1 (by decide),
    (fileDialogs_empty_extension_assert ["obj"] "obj" (allOkOracle "p")).2.2.2 (by decide)⟩⟩

/-- C8 (code bug): on the success path of `fgGuiDialogDirSelect` the
early `return` skips `psiResult->Release()`, so the acquired
`IShellItem` is never released, contradicting release-on-every-path;
the `IFileDialog` itself is still released by the scope guard. -/
theorem fgGuiDialogDirSelect_item_leak :
    ((fgGuiDialogDirSelect (allOkOracle "dir")).2.count .acquireItem = 1 ∧
      (fgGuiDialogDirSelect (allOkOracle "dir")).2.count .releaseItem = 0) ∧
    (fgGuiDialogDirSelect (allOkOracle "dir")).2.count .acquireDialog = 1 ∧
    (fgGuiDialogDirSelect (allOkOracle "dir")).2.count .releaseDialog = 1 := by
  decide

/-! ## Progress dialog (`fgGuiDialogProgress` and its `progress`
callback)

The step-advance callback given to the work function is embedded as a
state transition over the cancel flag (`s_cancel`), the pending
message queue, and the number of steps taken by the progress bar. -/

/-- Messages seen by the single-pass message pump of the callback. -/
inductive WinMsg
  | quit
  | cancelClick
  | otherMsg
deriving DecidableEq, Repr

/-- State of the progress dialog between callback invocations. -/
structure ProgSt where
  cancel : Bool
  queue : List WinMsg
  pbPos : ℕ
deriving DecidableEq, Repr

/-- The message-pump loop of the callback: take pending messages in
order; a WM_QUIT ends the callback with a true (cancel) result leaving
later messages queued; dispatching a cancel-button WM_COMMAND sets the
cancel flag through the window procedure; other messages are
dispatched without effect.  Returns (callback result, cancel flag,
remaining queue). -/
def pumpMsgs : Bool → List WinMsg → Bool × Bool × List WinMsg
  | c, [] => (false, c, [])
  | c, m :: ms =>
    match m with
    | .quit => (true, c, ms)
    | .cancelClick => pumpMsgs true ms
    | .otherMsg => pumpMsgs c ms

/-- Embedding of the `progress` callback: return true at once when the
cancel flag is already set; otherwise advance the progress bar by one
step on a milestone call, then run one pass of the message pump. -/
def progress (s : ProgSt) (milestone : Bool) : Bool × ProgSt :=
  if s.cancel then (true, s)
  else
    let pb := if milestone then s.pbPos + 1 else s.pbPos
    let r := pumpMsgs s.cancel s.queue
    (r.1, ⟨r.2.1, r.2.2, pb⟩)

theorem pumpMsgs_fst (c : Bool) (q : List WinMsg) :
    (pumpMsgs c q).1 = q.contains .quit := by
  induction q generalizing c with
  | nil => rfl
  | cons m ms ih =>
    rcases m with _ | _ | _ <;> simp [pumpMsgs, List.contains_cons, ih]

theorem pumpMsgs_cancel (c : Bool) (q : List WinMsg)
    (hq : q.contains .quit = false) :
    (pumpMsgs c q).2.1 = (c || q.contains .cancelClick) := by
  induction q generalizing c with
  | nil => simp [pumpMsgs]
  | cons m ms ih =>
    simp only [List.contains_cons] at hq
    rcases m with _ | _ | _
    · simp at hq
    · have hq2 : ms.contains .quit = false := by
        rcases h4 : ms.contains .quit with _ | _
        · rfl
        · rw [h4] at hq; simp at hq
      simp [pumpMsgs, ih true hq2, List.contains_cons]
    · have hq2 : ms.contains .quit = false := by
        rcases h4 : ms.contains .quit with _ | _
        · rfl
        · rw [h4] at hq; simp at hq
      simp [pumpMsgs, ih c hq2, List.contains_cons]

/-- C6 counterexample: the claim as stated fails on the code.  With the
cancel flag already set, a milestone call returns true immediately and
does not advance the progress bar; and a cancel-button press pumped
during the call sets the flag yet that call still returns false. -/
theorem progress_claim_counterexample :
    (progress ⟨true, [], 0⟩ true).2.pbPos ≠ 0 + 1 ∧
    (progress ⟨false, [.cancelClick], 0⟩ true).1 = false ∧
    (progress ⟨false, [.cancelClick], 0⟩ true).2.cancel = true := by
  decide

/-- C6 (amended): the callback returns true exactly when the cancel
flag was already set at entry or a WM_QUIT message is pumped during
the call; a milestone call advances the progress bar by one step
unless cancellation was already flagged (then it returns at once
without stepping); a cancel-button press processed during the call
sets the flag but is reported from the next call onward. -/
theorem progress_callback_spec (s : ProgSt) (milestone : Bool) :
    ((progress s milestone).1 = (s.cancel || s.queue.contains .quit)) ∧
    ((progress s milestone).2.pbPos =
      if s.cancel then s.pbPos else if milestone then s.pbPos + 1 else s.pbPos) ∧
    (s.cancel = false → s.queue.contains .quit = false →
      (progress s milestone).2.cancel = s.queue.contains .cancelClick ∧
      (s.queue.contains .cancelClick = true →
        ∀ m2, (progress (progress s milestone).2 m2).1 = true)) := by
  by_cases hc : s.cancel
  · refine ⟨by simp [progress, hc], by simp [progress, hc], fun h => ?_⟩
    rw [hc] at h
    cases h
  · simp only [Bool.not_eq_true] at hc
    refine ⟨by simp [progress, hc, pumpMsgs_fst], by simp [progress, hc], fun _ hq => ?_⟩
    have hcan : (progress s milestone).2.cancel = s.queue.contains .cancelClick := by
      simp [progress, hc, pumpMsgs_cancel false s.queue hq]
    refine ⟨hcan, fun hclick m2 => ?_⟩
    have hset : (progress s milestone).2.cancel = true := by rw [hcan, hclick]
    rw [progress, if_pos hset]

/-- Witness for C6 (amended) at a concrete state with a pending
cancel click. -/
theorem progress_callback_spec_witness :
    ((progress ⟨false, [.cancelClick], 3⟩ true).1 =
      (false || ([WinMsg.cancelClick].contains .quit)) ∧
    ((progress ⟨false, [.cancelClick], 3⟩ true).2.pbPos = 3 + 1) ∧
    ((progress ⟨false, [.cancelClick], 3⟩ true).2.cancel =
      ([WinMsg.cancelClick].contains .cancelClick))) := by
  obtain ⟨h1, h2, h3⟩ := progress_callback_spec ⟨false, [.cancelClick], 3⟩ true
  exact ⟨h1, by rw [h2]; rfl, (h3 rfl (by decide)).1⟩

/-! ## Splash screen (`fgGuiDialogSplashScreen` and its close
callback)

The window-system effects relevant to the claim are embedded as a
small state: the handle recorded by WM_INITDIALOG, whether the dialog
is open, and the geometry set by `SetWindowPos`.  `EndDialog` on an
already-closed window has no effect. -/

/-- Fixed splash image size from the source. -/
def s_splashSize : ℤ := 256

/-- The screen work area as reported by
`SystemParametersInfo(SPI_GETWORKAREA)`. -/
structure WorkArea where
  left : ℤ
  top : ℤ
  right : ℤ
  bottom : ℤ
deriving DecidableEq, Repr

/-- Observable state of the splash dialog. -/
structure SplashSt where
  hwndThis : ℕ
  isOpen : Bool
  posX : ℤ
  posY : ℤ
  width : ℤ
  height : ℤ
deriving DecidableEq, Repr

/-- Embedding of `fgGuiDialogSplashScreen` up to the WM_INITDIALOG
handler: record the window handle (nonzero when `CreateDialog`
succeeded, which the source asserts) and centre the fixed-size window
on the work area via `SetWindowPos`. -/
def fgGuiDialogSplashScreen (area : WorkArea) (hwnd : ℕ) : SplashSt :=
  { hwndThis := hwnd, isOpen := true,
    posX := (area.right - area.left - s_splashSize) / 2,
    posY := (area.bottom - area.top - s_splashSize) / 2,
    width := s_splashSize, height := s_splashSize }

/-- `EndDialog`: closing an open dialog closes it; on an already
closed window it has no effect. -/
def endDialog (s : SplashSt) : SplashSt := { s with isOpen := false }

/-- Embedding of `fgGuiWinDialogSplashClose`, the returned close
callback: call `EndDialog` when a window handle was recorded. -/
def fgGuiWinDialogSplashClose (s : SplashSt) : SplashSt :=
  if s.hwndThis ≠ 0 then endDialog s else s

/-- C7: the splash screen is a fixed-size 256x256 window centred on
the screen work area, and the returned close callback is usable
exactly once: its first invocation closes the splash window and a
second invocation leaves the state unchanged. -/
theorem splash_screen_spec (area : WorkArea) (hwnd : ℕ) (h : hwnd ≠ 0) :
    (fgGuiDialogSplashScreen area hwnd).width = 256 ∧
    (fgGuiDialogSplashScreen area hwnd).height = 256 ∧
    (fgGuiDialogSplashScreen area hwnd).posX = (area.right - area.left - 256) / 2 ∧
    (fgGuiDialogSplashScreen area hwnd).posY = (area.bottom - area.top - 256) / 2 ∧
    (fgGuiDialogSplashScreen area hwnd).isOpen = true ∧
    (fgGuiWinDialogSplashClose (fgGuiDialogSplashScreen area hwnd)).isOpen = false ∧
    fgGuiWinDialogSplashClose (fgGuiWinDialogSplashClose (fgGuiDialogSplashScreen area hwnd)) =
      fgGuiWinDialogSplashClose (fgGuiDialogSplashScreen area hwnd) := by
  refine ⟨rfl, rfl, rfl, rfl, rfl, ?_, ?_⟩
  · simp [fgGuiWinDialogSplashClose, fgGuiDialogSplashScreen, endDialog, h]
  · simp [fgGuiWinDialogSplashClose, fgGuiDialogSplashScreen, endDialog, h]

/-- Witness for C7 on a concrete work area and window handle. -/
theorem splash_screen_spec_witness :
    (fgGuiDialogSplashScreen ⟨0, 0, 1024, 768⟩ 7).width = 256 ∧
    (fgGuiDialogSplashScreen ⟨0, 0, 1024, 768⟩ 7).height = 256 ∧
    (fgGuiDialogSplashScreen ⟨0, 0, 1024, 768⟩ 7).posX = (1024 - 0 - 256) / 2 ∧
    (fgGuiDialogSplashScreen ⟨0, 0, 1024, 768⟩ 7).posY = (768 - 0 - 256) / 2 ∧
    (fgGuiDialogSplashScreen ⟨0, 0, 1024, 768⟩ 7).isOpen = true ∧
    (fgGuiWinDialogSplashClose (fgGuiDialogSplashScreen ⟨0, 0, 1024, 768⟩ 7)).isOpen = false ∧
    fgGuiWinDialogSplashClose
        (fgGuiWinDialogSplashClose (fgGuiDialogSplashScreen ⟨0, 0, 1024, 768⟩ 7)) =
      fgGuiWinDialogSplashClose (fgGuiDialogSplashScreen ⟨0, 0, 1024, 768⟩ 7) :=
  splash_screen_spec ⟨0, 0, 1024, 768⟩ 7 (by decide)

/-! ## FgVariant (`FgVariant.hpp`)

The container stores any copy-constructible value behind a cloneable
base-class pointer.  The embedding uses a representative closed
universe of storable C++ types; `dynamic_cast<Poly<T>*>` succeeds
exactly when the dynamic type tag equals the requested tag, and on a
null pointer it yields null. -/

/-- Tags of a representative universe of storable types. -/
inductive CppType
  | tInt
  | tDouble
  | tString
  | tBool
deriving DecidableEq, Repr

/-- Model of `typeid(T).name()`. -/
def CppType.typeName : CppType → String
  | .tInt => "int"
  | .tDouble => "double"
  | .tString => "string"
  | .tBool => "bool"

/-- A stored value together with its dynamic type. -/
inductive CppVal
  | vInt (n : ℤ)
  | vDouble (q : ℚ)
  | vString (s : String)
  | vBool (b : Bool)
deriving DecidableEq, Repr

/-- Dynamic type tag of a stored value. -/
def CppVal.typeOf : CppVal → CppType
  | .vInt _ => .tInt
  | .vDouble _ => .tDouble
  | .vString _ => .tString
  | .vBool _ => .tBool

/-- Model of `FgVariant` for the type-recovery claim: the smart
pointer `m_poly`, null when default-constructed, otherwise owning a
value of some stored type. -/
structure FgVariant where
  m_poly : Option CppVal
deriving DecidableEq, Repr

/-- Embedding of `FgVariant::isType<T>`: the `dynamic_cast` to
`Poly<T>` yields non-null exactly for the stored dynamic type (and
null when `m_poly` is null). -/
def FgVariant.isType (T : CppType) (v : FgVariant) : Bool :=
  match v.m_poly with
  | none => false
  | some s => s.typeOf == T

/-- Embedding of `FgVariant::getCRef<T>`: throw on a null variant,
throw on a type mismatch discovered by `dynamic_cast`, and return the
stored value otherwise. -/
def FgVariant.getCRef (T : CppType) (v : FgVariant) : Except String CppVal :=
  match v.m_poly with
  | none => .error ("Variant NULL dereferenced as " ++ T.typeName)
  | some s =>
      if s.typeOf = T then .ok s
      else .error ("Variant incompatible type dereference from/to " ++
        s.typeOf.typeName ++ " / " ++ T.typeName)

/-- C9: FgVariant recovers types safely with no unchecked downcast:
`getCRef T` succeeds exactly when the variant holds a value whose
stored type is `T` (throwing a diagnostic on an empty variant and on
any mismatch, and returning the stored value on a match), and
`isType T` is true exactly when the variant holds a value of type
`T`. -/
theorem fgVariant_type_recovery (T : CppType) (v : FgVariant) :
    (v.isType T = true ↔ ∃ s, v.m_poly = some s ∧ s.typeOf = T) ∧
    ((∃ s, v.getCRef T = .ok s) ↔ ∃ s, v.m_poly = some s ∧ s.typeOf = T) ∧
    (∀ s, v.m_poly = some s → s.typeOf = T → v.getCRef T = .ok s) ∧
    (v.m_poly = none → v.getCRef T = .error ("Variant NULL dereferenced as " ++ T.typeName)) ∧
    (∀ s, v.m_poly = some s → s.typeOf ≠ T →
      v.getCRef T = .error ("Variant incompatible type dereference from/to " ++
        s.typeOf.typeName ++ " / " ++ T.typeName)) := by
  rcases v with ⟨_ | s⟩
  · refine ⟨by simp [FgVariant.isType], ?_, by simp, fun _ => rfl, by simp⟩
    constructor
    · rintro ⟨s, hs⟩
      rw [FgVariant.getCRef] at hs
      cases hs
    · rintro ⟨s, hs, _⟩
      cases hs
  · refine ⟨?_, ?_, ?_, by simp, ?_⟩
    · simp only [FgVariant.isType, beq_iff_eq, Option.some.injEq]
      constructor
      · intro h
        exact ⟨s, rfl, h⟩
      · rintro ⟨s2, rfl, h⟩
        exact h
    · simp only [FgVariant.getCRef, Option.some.injEq]
      by_cases h : s.typeOf = T
      · rw [if_pos h]
        exact ⟨fun _ => ⟨s, rfl, h⟩, fun _ => ⟨s, rfl⟩⟩
      · rw [if_neg h]
        constructor
        · rintro ⟨s2, hs2⟩
          cases hs2
        · rintro ⟨s2, rfl, h2⟩
          exact absurd h2 h
    · rintro s2 hs2 h
      rw [Option.some.injEq] at hs2
      subst hs2
      simp only [FgVariant.getCRef]
      rw [if_pos h]
    · rintro s2 hs2 h
      rw [Option.some.injEq] at hs2
      subst hs2
      simp only [FgVariant.getCRef]
      rw [if_neg h]

/-- Witness for C9: a held int recovered as int, rejected as string,
and the null variant rejected. -/
theorem fgVariant_type_recovery_witness :
    FgVariant.getCRef .tInt ⟨some (.vInt 3)⟩ = .ok (.vInt 3) ∧
    FgVariant.isType .tInt (⟨some (.vInt 3)⟩ : FgVariant) = true ∧
    FgVariant.getCRef .tString ⟨some (.vInt 3)⟩ =
      .error ("Variant incompatible type dereference from/to " ++
        (CppVal.vInt 3).typeOf.typeName ++ " / " ++ CppType.tString.typeName) ∧
    FgVariant.getCRef .tInt ⟨none⟩ =
      .error ("Variant NULL dereferenced as " ++ CppType.tInt.typeName) :=
  ⟨(fgVariant_type_recovery .tInt ⟨some (.vInt 3)⟩).2.2.1 (.vInt 3) rfl rfl,
   (fgVariant_type_recovery .tInt ⟨some (.vInt 3)⟩).1.mpr ⟨.vInt 3, rfl, rfl⟩,
   (fgVariant_type_recovery .tString ⟨some (.vInt 3)⟩).2.2.2.2 (.vInt 3) rfl (by decide),
   (fgVariant_type_recovery .tInt ⟨none⟩).2.2.2.1 rfl⟩

/-! ### Ownership model for the copy-on-copy idiom

For the deep-copy claim the heap is explicit: each `Poly<T>` allocation
is a cell at a fresh address; copy construction clones the held value
into a new cell (`Poly::clone`), and mutation through `getRef`
(`FgVariant::set`) writes the cell in place. -/

/-- Read the cell at an address. -/
def readCells : List (ℕ × CppVal) → ℕ → Option CppVal
  | [], _ => none
  | c :: cs, a => if c.1 = a then some c.2 else readCells cs a

/-- Overwrite the cell at an address in place. -/
def writeCells : List (ℕ × CppVal) → ℕ → CppVal → List (ℕ × CppVal)
  | [], _, _ => []
  | c :: cs, a, w => if c.1 = a then (a, w) :: cs else c :: writeCells cs a w

/-- The heap of `Poly` allocations: cells and the next fresh
address. -/
structure VarHeap where
  cells : List (ℕ × CppVal)
  next : ℕ
deriving DecidableEq, Repr

/-- Read the value owned at an address. -/
def VarHeap.read (h : VarHeap) (a : ℕ) : Option CppVal := readCells h.cells a

/-- Write the value owned at an address. -/
def VarHeap.write (h : VarHeap) (a : ℕ) (w : CppVal) : VarHeap :=
  ⟨writeCells h.cells a w, h.next⟩

/-- Allocate a new cell (`new Poly<T>(val)`). -/
def VarHeap.alloc (h : VarHeap) (v : CppVal) : ℕ × VarHeap :=
  (h.next, ⟨(h.next, v) :: h.cells, h.next + 1⟩)

/-- Every allocated address is below the allocation counter. -/
def WfHeap (h : VarHeap) : Prop := ∀ c ∈ h.cells, c.1 < h.next

/-- A variant as an owning pointer into the heap. -/
structure FgVariantH where
  addr : Option ℕ
deriving DecidableEq, Repr

/-- Embedding of the value constructor `FgVariant(const T &)`:
allocate a `Poly` cell holding the value. -/
def mkVariantH (v : CppVal) (h : VarHeap) : FgVariantH × VarHeap :=
  ((⟨some (h.alloc v).1⟩ : FgVariantH), (h.alloc v).2)

/-- Embedding of the copy constructor `FgVariant(const FgVariant &)`
(and of `operator=` from a variant, declared with the same
copies-the-value-within semantics): clone the held value into a newly
allocated cell; an empty source yields an empty variant. -/
def copyVariantH (src : FgVariantH) (h : VarHeap) : FgVariantH × VarHeap :=
  match src.addr with
  | none => ((⟨none⟩ : FgVariantH), h)
  | some a =>
      match h.read a with
      | none => ((⟨none⟩ : FgVariantH), h)
      | some v => mkVariantH v h

/-- Embedding of mutation through `getRef<T>` (`FgVariant::set`):
overwrite the owned cell in place. -/
def setVariantH (dst : FgVariantH) (w : CppVal) (h : VarHeap) : VarHeap :=
  match dst.addr with
  | none => h
  | some a => h.write a w

/-- Embedding of `getCRef<T>` over the heap. -/
def getCRefH (T : CppType) (v : FgVariantH) (h : VarHeap) : Except String CppVal :=
  match v.addr with
  | none => .error ("Variant NULL dereferenced as " ++ T.typeName)
  | some a =>
      match h.read a with
      | none => .error "dangling pointer"
      | some s =>
          if s.typeOf = T then .ok s
          else .error ("Variant incompatible type dereference from/to " ++
            s.typeOf.typeName ++ " / " ++ T.typeName)

theorem readCells_lt {cs : List (ℕ × CppVal)} {a : ℕ} {v : CppVal} {n : ℕ}
    (hwf : ∀ c ∈ cs, c.1 < n) (h : readCells cs a = some v) : a < n := by
  induction cs with
  | nil => cases h
  | cons c cs ih =>
    rw [readCells] at h
    by_cases hc : c.1 = a
    · rw [← hc]
      exact hwf c (List.mem_cons_self c cs)
    · rw [if_neg hc] at h
      exact ih (fun c2 hc2 => hwf c2 (List.mem_cons_of_mem c hc2)) h

theorem readCells_write_ne {cs : List (ℕ × CppVal)} {a b : ℕ} {w : CppVal}
    (hne : a ≠ b) : readCells (writeCells cs b w) a = readCells cs a := by
  induction cs with
  | nil => rfl
  | cons c cs ih =>
    rw [writeCells]
    by_cases hc : c.1 = b
    · have h1 : ¬ ((b, w).1 = a) := fun hba => hne hba.symm
      have h2 : ¬ (c.1 = a) := by rw [hc]; exact fun hba => hne hba.symm
      rw [if_pos hc, readCells, readCells, if_neg h1, if_neg h2]
    · rw [if_neg hc, readCells, readCells]
      by_cases hca : c.1 = a
      · rw [if_pos hca, if_pos hca]
      · rw [if_neg hca, if_neg hca, ih]

/-- C10: FgVariant round-trips values and copies deeply.  Constructing
a variant from a value and reading it back at the stored type yields
the value; copy construction (and assignment from a variant) clones
the held value into separately owned storage holding an equal value of
the same type, and mutating the copy through `getRef` never changes
the original. -/
theorem fgVariant_roundtrip_deep_copy (val : CppVal) (h0 : VarHeap)
    (h : VarHeap) (hwf : WfHeap h) (a : ℕ) (v : CppVal) (hread : h.read a = some v) :
    (getCRefH val.typeOf (mkVariantH val h0).1 (mkVariantH val h0).2 = .ok val) ∧
    ((copyVariantH ⟨some a⟩ h).1.addr = some h.next ∧ h.next ≠ a) ∧
    ((copyVariantH ⟨some a⟩ h).2.read h.next = some v ∧
      (copyVariantH ⟨some a⟩ h).2.read a = some v) ∧
    ∀ w, (setVariantH (copyVariantH ⟨some a⟩ h).1 w (copyVariantH ⟨some a⟩ h).2).read a =
      some v := by
  have halt : a < h.next := readCells_lt hwf hread
  have hne : h.next ≠ a := fun heq => absurd (heq ▸ halt) (lt_irrefl a)
  have hcopy : copyVariantH ⟨some a⟩ h = mkVariantH v h := by
    rw [copyVariantH]
    simp only [hread]
  refine ⟨?_, ?_, ?_, ?_⟩
  · simp [getCRefH, mkVariantH, VarHeap.alloc, VarHeap.read, readCells]
  · rw [hcopy]
    exact ⟨rfl, hne⟩
  · rw [hcopy]
    constructor
    · simp [mkVariantH, VarHeap.alloc, VarHeap.read, readCells]
    · simp only [mkVariantH, VarHeap.alloc, VarHeap.read, readCells]
      rw [if_neg hne]
      exact hread
  · intro w
    rw [hcopy]
    show (VarHeap.write (h.alloc v).2 (h.alloc v).1 w).read a = some v
    simp only [VarHeap.alloc, VarHeap.write, VarHeap.read, writeCells, readCells]
    rw [if_neg hne]
    exact hread

/-- Witness for C10 on a concrete heap holding one int cell. -/
theorem fgVariant_roundtrip_deep_copy_witness :
    (getCRefH (CppVal.vInt 7).typeOf (mkVariantH (.vInt 7) ⟨[], 0⟩).1
        (mkVariantH (.vInt 7) ⟨[], 0⟩).2 = .ok (.vInt 7)) ∧
    ((copyVariantH ⟨some 0⟩ ⟨[(0, .vInt 5)], 1⟩).1.addr = some 1 ∧ (1 : ℕ) ≠ 0) ∧
    ((copyVariantH ⟨some 0⟩ ⟨[(0, .vInt 5)], 1⟩).2.read 1 = some (.vInt 5) ∧
      (copyVariantH ⟨some 0⟩ ⟨[(0, .vInt 5)], 1⟩).2.read 0 = some (.vInt 5)) ∧
    ∀ w, (setVariantH (copyVariantH ⟨some 0⟩ ⟨[(0, .vInt 5)], 1⟩).1 w
        (copyVariantH ⟨some 0⟩ ⟨[(0, .vInt 5)], 1⟩).2).read 0 = some (.vInt 5) :=
  fgVariant_roundtrip_deep_copy (.vInt 7) ⟨[], 0⟩ ⟨[(0, .vInt 5)], 1⟩
    (by intro c hc; simp only [List.mem_singleton] at hc; rw [hc]; decide) 0 (.vInt 5) rfl
